import Mathlib

/-!
Verification of the Reviewllama review reconciler (content script and
background service worker) against its natural-language specification.

The development shallowly embeds the JavaScript source:
* the identifier derivation `btoa(encodeURIComponent(title + nickname +
  content)).substring(0, 16)` is modelled byte-exactly (UTF-8 percent
  encoding followed by base64, truncated to 16 characters);
* a DOM element is modelled as a `querySelector` function whose results may
  be a node, `null`, or a thrown exception (`Except`), so that the
  extractor's `try/catch` behaviour is expressible;
* the scanner, counter injection, analysis-cache decision, knowledge-base
  matcher, mutation-observer debounce, and badge update are each translated
  from the corresponding source function.
-/

namespace Reviewllama

/-! ## JavaScript string primitives -/

/-- Whitespace stripped by JavaScript `String.prototype.trim`
(WhiteSpace and LineTerminator code points). -/
def jsWhitespaceChar (c : Char) : Bool :=
  c.toNat = 0x20 || c.toNat = 0x9 || c.toNat = 0xA || c.toNat = 0xB ||
  c.toNat = 0xC || c.toNat = 0xD || c.toNat = 0xA0 || c.toNat = 0x1680 ||
  (0x2000 ≤ c.toNat && c.toNat ≤ 0x200A) || c.toNat = 0x2028 ||
  c.toNat = 0x2029 || c.toNat = 0x202F || c.toNat = 0x205F ||
  c.toNat = 0x3000 || c.toNat = 0xFEFF

/-- JavaScript `String.prototype.trim`: strip leading and trailing
whitespace. -/
def jsTrim (s : String) : String :=
  String.mk (((s.toList.dropWhile jsWhitespaceChar).reverse.dropWhile
    jsWhitespaceChar).reverse)

/-- JavaScript `String.prototype.toLowerCase`, restricted to the ASCII
range (the only case mapping exercised by the source's keyword data). -/
def jsToLower (s : String) : String :=
  String.mk (s.toList.map Char.toLower)

/-- JavaScript `String.prototype.includes` on character lists: `needle`
occurs contiguously inside `hay` (the empty needle always occurs). -/
def isSubstrOf (needle hay : List Char) : Bool :=
  match hay with
  | [] => needle.isEmpty
  | _ :: t => needle.isPrefixOf hay || isSubstrOf needle t

/-! ## `encodeURIComponent`

`encodeURIComponent` leaves unreserved characters (`A-Z a-z 0-9 - _ . !
~ * ' ( )`) unchanged and replaces every other character by the
percent-encoding of its UTF-8 bytes, with uppercase hexadecimal digits.
The result is an ASCII string, represented here as its list of byte
values. -/

/-- Characters `encodeURIComponent` leaves unescaped, by code point. -/
def uriUnreserved (n : Nat) : Bool :=
  (65 ≤ n && n ≤ 90) || (97 ≤ n && n ≤ 122) || (48 ≤ n && n ≤ 57) ||
  n = 45 || n = 95 || n = 46 || n = 33 || n = 126 || n = 42 || n = 39 ||
  n = 40 || n = 41

/-- Code of the uppercase hexadecimal digit for `n < 16`. -/
def hexDigitCode (n : Nat) : Nat :=
  if n < 10 then 48 + n else 55 + n

/-- Percent-encoding `%XX` of one byte, as a list of three byte values. -/
def pctEncodeByte (b : Nat) : List Nat :=
  [37, hexDigitCode (b / 16), hexDigitCode (b % 16)]

/-- UTF-8 encoding of the code point `n`. -/
def utf8Bytes (n : Nat) : List Nat :=
  if n < 0x80 then [n]
  else if n < 0x800 then [0xC0 + n / 64, 0x80 + n % 64]
  else if n < 0x10000 then
    [0xE0 + n / 4096, 0x80 + n / 64 % 64, 0x80 + n % 64]
  else
    [0xF0 + n / 262144, 0x80 + n / 4096 % 64, 0x80 + n / 64 % 64,
      0x80 + n % 64]

/-- Encoding of a single character under `encodeURIComponent`. -/
def encChar (c : Char) : List Nat :=
  if uriUnreserved c.toNat then [c.toNat]
  else (utf8Bytes c.toNat).flatMap pctEncodeByte

/-- Function `encodeURIComponent`, producing the byte values of its ASCII result. -/
def encodeURIComponent (s : String) : List Nat :=
  s.toList.flatMap encChar

/-! ## `btoa`

`btoa` base64-encodes a byte string with the standard alphabet and `=`
padding.  We first produce the sextet values (with `64` standing for the
padding character) and then map them to characters. -/

/-- The base64 alphabet. -/
def b64Alphabet : List Char :=
  "ABCDEFGHIJKLMNOPQRSTUVWXYZabcdefghijklmnopqrstuvwxyz0123456789+/".toList

/-- Character for a sextet value; `64` denotes the padding `=`. -/
def sextetChar (n : Nat) : Char :=
  if n = 64 then '=' else b64Alphabet.getD n 'A'

/-- Sextet values (padding marked `64`) of the base64 encoding. -/
def b64Chunks : List Nat → List Nat
  | [] => []
  | [a] => [a / 4, a % 4 * 16, 64, 64]
  | [a, b] => [a / 4, a % 4 * 16 + b / 16, b % 16 * 4, 64]
  | a :: b :: c :: r =>
    a / 4 :: (a % 4 * 16 + b / 16) :: (b % 16 * 4 + c / 64) :: c % 64 ::
      b64Chunks r

/-- Function `btoa` on a byte list, as a character list. -/
def btoa (l : List Nat) : List Char :=
  (b64Chunks l).map sextetChar

/-- The review identifier of `extractReviewData`:
`btoa(encodeURIComponent(title + nickname + content)).substring(0, 16)`. -/
def deriveId (title nickname content : String) : String :=
  String.mk ((btoa (encodeURIComponent (title ++ nickname ++ content))).take 16)

/-! ## Decoders (used only in proofs, to invert the encoders) -/

/-- Value of a hexadecimal digit character code. -/
def hexVal (n : Nat) : Nat :=
  if 48 ≤ n ∧ n ≤ 57 then n - 48 else if 65 ≤ n then n - 55 else 0

/-- Inverse of `sextetChar` on `0..64`. -/
def sextetVal (c : Char) : Nat :=
  if c = '=' then 64 else b64Alphabet.indexOf c

/-- Inverse of `b64Chunks`: recover the bytes from the sextet values. -/
def unb64 : List Nat → List Nat
  | e1 :: e2 :: e3 :: e4 :: r =>
    if e3 = 64 then [e1 * 4 + e2 / 16]
    else if e4 = 64 then [e1 * 4 + e2 / 16, e2 % 16 * 16 + e3 / 4]
    else (e1 * 4 + e2 / 16) :: (e2 % 16 * 16 + e3 / 4) ::
      (e3 % 4 * 64 + e4) :: unb64 r
  | _ => []

/-! ## DOM model

A node exposes the two accessors the extractor reads; an element is a
`querySelector` function.  Every access is an `Except` so that a thrown
exception (the case the source's `try/catch` guards against) is
representable; `Option` represents `null`/`undefined`. -/

/-- A JavaScript exception, identified by its message. -/
abbrev JsErr := String

/-- A DOM node as seen by the extractor. -/
structure DomNode where
  textContent : Except JsErr (Option String)
  className : Except JsErr (Option String)

/-- A DOM element: `querySelector` maps a selector to a node, `null`, or a
thrown exception. -/
structure Element where
  querySelector : String → Except JsErr (Option DomNode)

/-- Evaluation of `element.querySelector(sel)?.textContent?.trim()`: `none` when the
optional chain produced `undefined`. -/
def textTrim (e : Element) (sel : String) : Except JsErr (Option String) :=
  match e.querySelector sel with
  | .error er => .error er
  | .ok none => .ok none
  | .ok (some nd) =>
    match nd.textContent with
    | .error er => .error er
    | .ok none => .ok none
    | .ok (some s) => .ok (some (jsTrim s))

/-- The title: three selector fallbacks joined by JavaScript `||` (an
empty trimmed string is falsy and falls through), final fallback `''`. -/
def titleOf (e : Element) : Except JsErr String :=
  match textTrim e ".review-top h3 span" with
  | .error er => .error er
  | .ok t1 =>
    if t1.getD "" ≠ "" then .ok (t1.getD "") else
    match textTrim e "div[ng-bind*=\".value.title\"]" with
    | .error er => .error er
    | .ok t2 =>
      if t2.getD "" ≠ "" then .ok (t2.getD "") else
      match textTrim e "span[ng-bind*=\".value.title\"]" with
      | .error er => .error er
      | .ok t3 => .ok (t3.getD "")

/-- Whether the list begins with `count-` followed by a digit; if so,
the digit's value. -/
def startCountDigit : List Char → Option Nat
  | 'c' :: 'o' :: 'u' :: 'n' :: 't' :: '-' :: d :: _ =>
    if d.isDigit then some (d.toNat - 48) else none
  | _ => none

/-- Leftmost match of the regular expression `/count-(\d)/`: the first
occurrence of the literal `count-` followed by a digit, whose value is
returned. -/
def findCountDigit (l : List Char) : Option Nat :=
  match l with
  | [] => none
  | c :: r =>
    match startCountDigit (c :: r) with
    | some d => some d
    | none => findCountDigit r

/-- Evaluation of `ratingMatch ? parseInt(ratingMatch[1]) : 0`. -/
def parseRating (cls : List Char) : Nat :=
  (findCountDigit cls).getD 0

/-- The rating: `element.querySelector('.stars')?.className?.match(/count-(\d)/)`,
digit value on a match and `0` otherwise. -/
def ratingOf (e : Element) : Except JsErr Nat :=
  match e.querySelector ".stars" with
  | .error er => .error er
  | .ok none => .ok 0
  | .ok (some nd) =>
    match nd.className with
    | .error er => .error er
    | .ok none => .ok 0
    | .ok (some cls) => .ok (parseRating cls.toList)

/-- The review body: two selector fallbacks joined by `||`, final
fallback `''`. -/
def contentOf (e : Element) : Except JsErr String :=
  match textTrim e "div[ng-bind*=\".value.review\"]" with
  | .error er => .error er
  | .ok t1 =>
    if t1.getD "" ≠ "" then .ok (t1.getD "") else
    match textTrim e ".review-body" with
    | .error er => .error er
    | .ok t2 => .ok (t2.getD "")

/-- Evaluation of `!!element.querySelector('.inner-container')`. -/
def hasResponseOf (e : Element) : Except JsErr Bool :=
  match e.querySelector ".inner-container" with
  | .error er => .error er
  | .ok r => .ok r.isSome

/-- A character the regular expression `.` does not match (a
LineTerminator). -/
def isLineTerm (c : Char) : Bool :=
  c.toNat = 0xA || c.toNat = 0xD || c.toNat = 0x2028 || c.toNat = 0x2029

/-- Whether the list begins with the terminator ` –` (space, en dash) of
the nickname pattern. -/
def startsSpaceDash (l : List Char) : Bool :=
  match l with
  | a :: b :: _ => a = ' ' && b = Char.ofNat 0x2013
  | _ => false

/-- The lazy group `(.+?)` of `/by (.+?) –/` from a fixed start: consume at
least one non-terminator character, stopping at the earliest following
` –`. -/
def lazyCapture (acc : List Char) : List Char → Option (List Char)
  | [] => none
  | c :: rest =>
    if acc ≠ [] && startsSpaceDash (c :: rest) then some acc.reverse
    else if isLineTerm c then none
    else lazyCapture (c :: acc) rest

/-- Leftmost match of `/by (.+?) –/`, returning the captured group. -/
def matchByDash : List Char → Option (List Char)
  | [] => none
  | 'b' :: 'y' :: ' ' :: rest =>
    match lazyCapture [] rest with
    | some cap => some cap
    | none => matchByDash ('y' :: ' ' :: rest)
  | _ :: rest => matchByDash rest

/-- The nickname: `nicknameText.match(/by (.+?) –/)`, capture or `''`. -/
def nicknameFromText (s : String) : String :=
  match matchByDash s.toList with
  | some cap => String.mk cap
  | none => ""

/-- Evaluation of `element.querySelector('.review-meta span')?.textContent || ''`
(note: no trim), then the `by … –` pattern. -/
def nicknameOf (e : Element) : Except JsErr String :=
  match e.querySelector ".review-meta span" with
  | .error er => .error er
  | .ok none => .ok (nicknameFromText "")
  | .ok (some nd) =>
    match nd.textContent with
    | .error er => .error er
    | .ok t => .ok (nicknameFromText (t.getD ""))

/-- One observed review.  The source record also keeps a reference to the
DOM element it was scraped from (used only by the later label/modal
injection, which no claim concerns); that field is omitted here. -/
structure ReviewRecord where
  id : String
  title : String
  rating : Nat
  content : String
  nickname : String
  hasResponse : Bool
  deriving DecidableEq, Repr

/-- The body of `extractReviewData`, before the `try/catch`: each step may
throw. -/
def extractBody (e : Element) : Except JsErr ReviewRecord :=
  match titleOf e with
  | .error er => .error er
  | .ok title =>
    match ratingOf e with
    | .error er => .error er
    | .ok rating =>
      match contentOf e with
      | .error er => .error er
      | .ok content =>
        match hasResponseOf e with
        | .error er => .error er
        | .ok hasResp =>
          match nicknameOf e with
          | .error er => .error er
          | .ok nickname =>
            .ok { id := deriveId title nickname content, title := title,
                  rating := rating, content := content,
                  nickname := nickname, hasResponse := hasResp }

/-- Function `extractReviewData`: the body wrapped in `try/catch`, returning `null`
(here `none`) on any exception. -/
def extractReviewData (e : Element) : Option ReviewRecord :=
  match extractBody e with
  | .ok r => some r
  | .error _ => none

/-! ## Scanner / reconciler (`scanReviews`) -/

/-- The mutable state the scanner rebuilds: the snapshot map (a JavaScript
`Map`, i.e. an insertion-ordered association list with replace-on-set) and
the two counters. -/
structure ScanState where
  reviews : List (String × ReviewRecord)
  totalReviews : Nat
  unansweredReviews : Nat
  deriving Repr

/-- Method `Map.prototype.set`: replace in place when the key is present,
otherwise append. -/
def mapSet (m : List (String × ReviewRecord)) (k : String) (v : ReviewRecord) :
    List (String × ReviewRecord) :=
  if m.any (fun p => p.1 == k) then
    m.map (fun p => if p.1 == k then (k, v) else p)
  else m ++ [(k, v)]

/-- One iteration of the `forEach` body of `scanReviews`. -/
def scanStep (s : ScanState) (e : Element) : ScanState :=
  match extractReviewData e with
  | none => s
  | some r =>
    { reviews := mapSet s.reviews r.id r,
      totalReviews := s.totalReviews + 1,
      unansweredReviews :=
        s.unansweredReviews + if r.hasResponse then 0 else 1 }

/-- Function `scanReviews`: clear the snapshot and counters, then fold the
extraction step over all nodes matching the container selector (given
here as the list of matched elements). -/
def scanReviews (elements : List Element) : ScanState :=
  elements.foldl scanStep { reviews := [], totalReviews := 0,
                            unansweredReviews := 0 }

/-! ## Counter injection (`injectReviewCounter`) -/

/-- The injected widget, carrying the counts its markup displays. -/
structure CounterWidget where
  total : Nat
  unanswered : Nat
  deriving DecidableEq, Repr

/-- The host document as seen by `injectReviewCounter`: the element with
id `reviewllama-counter` if any (ids are unique in a document, so
`getElementById` yields at most one element), and whether the
`#reviews-header` element is present. -/
structure PageDoc where
  counter : Option CounterWidget
  headerPresent : Bool
  deriving DecidableEq, Repr

/-- Function `injectReviewCounter`: remove any existing `#reviewllama-counter`,
then, when the reviews header exists, create and insert a fresh widget
showing the current counts (the insertion position inside the header does
not affect these observations). -/
def injectReviewCounter (total unanswered : Nat) (d : PageDoc) : PageDoc :=
  let d' := { d with counter := none }
  if d'.headerPresent then
    { d' with counter := some { total := total, unanswered := unanswered } }
  else d'

/-! ## Batch-analysis cache (`analyzeAllReviews`) -/

/-- One analysis result entry, as consumed by `applyAnalysisResults`. -/
structure AnalysisEntry where
  id : String
  sentiment : String
  category : String
  language : String
  topics : List String
  deriving DecidableEq, Repr

/-- The payload cached per page path. -/
structure AnalysisData where
  reviews : List AnalysisEntry
  deriving DecidableEq, Repr

/-- A `chrome.storage.local` cache entry. -/
structure CacheEntry where
  timestamp : Int
  data : AnalysisData
  deriving DecidableEq, Repr

/-- What `analyzeAllReviews` does after consulting the cache. -/
inductive AnalyzeAction where
  | useCache (data : AnalysisData)
  | freshRequest
  deriving DecidableEq, Repr

/-- The cache decision of `analyzeAllReviews`: apply the cached data when
the entry exists and `Date.now() - timestamp < 24 * 60 * 60 * 1000`,
otherwise issue a fresh `BATCH_ANALYZE_REVIEWS` request. -/
def analyzeAllReviews (cached : Option CacheEntry) (now : Int) :
    AnalyzeAction :=
  match cached with
  | some e =>
    if now - e.timestamp < 24 * 60 * 60 * 1000 then .useCache e.data
    else .freshRequest
  | none => .freshRequest

/-! ## Knowledge-base matcher (`matchKnowledgeBase`) -/

/-- One entry of `knowledgebase.json`'s `troubles` array (only the fields
the matcher reads). -/
structure KBItem where
  id : String
  keywords : List String
  deriving DecidableEq, Repr

/-- A scored match `{ id, score, item }`. -/
structure KBMatch where
  id : String
  score : Nat
  item : KBItem
  deriving DecidableEq, Repr

/-- The score of one knowledge-base item against the lowercased review
text: the number of its keywords occurring as substrings. -/
def kbScore (reviewText : List Char) (item : KBItem) : Nat :=
  item.keywords.countP
    (fun k => isSubstrOf (jsToLower k).toList reviewText)

/-- The lowercased `title + ' ' + content` text the matcher scores
against. -/
def reviewTextOf (r : ReviewRecord) : List Char :=
  (jsToLower (r.title ++ " " ++ r.content)).toList

/-- Insertion into a descending-by-score list, after all entries of
greater or equal score: the step of a stable sort. -/
def insertByScoreDesc (x : KBMatch) : List KBMatch → List KBMatch
  | [] => [x]
  | y :: ys =>
    if y.score < x.score then x :: y :: ys else y :: insertByScoreDesc x ys

/-- Method `Array.prototype.sort` with comparator `(a, b) => b.score - a.score`:
a stable sort in descending score order, modelled by stable insertion
sort. -/
def jsSortByScoreDesc (l : List KBMatch) : List KBMatch :=
  l.foldl (fun acc x => insertByScoreDesc x acc) []

/-- The `forEach` accumulation of `matchKnowledgeBase`: push
`{ id, score, item }` for each item of positive score, in knowledge-base
order. -/
def kbScores (text : List Char) (kb : List KBItem) : List KBMatch :=
  kb.foldl
    (fun acc item =>
      let s := kbScore text item
      if 0 < s then acc ++ [{ id := item.id, score := s, item := item }]
      else acc)
    []

/-- Function `matchKnowledgeBase`: score every trouble item, keep positive scores,
sort descending, return the top 3. -/
def matchKnowledgeBase (review : ReviewRecord) (kb : List KBItem) :
    List KBMatch :=
  (jsSortByScoreDesc (kbScores (reviewTextOf review) kb)).take 3

/-- Restatement of the matcher from the specification's words: annotate
every entry with its keyword-overlap score, exclude score 0, order by
descending score with ties in original knowledge-base order, keep the
first 3. -/
def specTopMatches (review : ReviewRecord) (kb : List KBItem) :
    List KBMatch :=
  (jsSortByScoreDesc
      ((kb.map (fun item =>
          { id := item.id, score := kbScore (reviewTextOf review) item,
            item := item })).filter
        (fun m => 0 < m.score))).take 3

/-! ## Mutation-observer debounce (`setupObserver`) -/

/-- A node of a `MutationRecord.addedNodes` list: whether it is an element
(`nodeType === 1`), whether it matches the review-container selector, and
whether it contains a matching descendant. -/
structure MutNode where
  isElement : Bool
  matchesContainer : Bool
  containsContainer : Bool
  deriving DecidableEq, Repr

/-- One `MutationRecord`. -/
structure MutationRec where
  addedNodes : List MutNode
  deriving DecidableEq, Repr

/-- The `hasNewReviews` test of the observer callback. -/
def hasNewReviews (ms : List MutationRec) : Bool :=
  ms.any (fun m =>
    m.addedNodes.any (fun n =>
      n.isElement && (n.matchesContainer || n.containsContainer)))

/-- The observer/debounce state: the `isProcessing` busy flag, the
mutation batch captured by the pending `setTimeout` (if one is
scheduled), and instrumentation counting scheduled timeouts and performed
rescans. -/
structure ObserverState where
  isProcessing : Bool
  pending : Option (List MutationRec)
  scheduledTimeouts : Nat
  rescans : Nat
  deriving DecidableEq, Repr

/-- The initial observer state. -/
def initObserver : ObserverState :=
  { isProcessing := false, pending := none, scheduledTimeouts := 0,
    rescans := 0 }

/-- The `MutationObserver` callback: return immediately while the busy
flag is set; otherwise set it and schedule the 500 ms timeout over the
received mutation batch. -/
def observerCallback (s : ObserverState) (muts : List MutationRec) :
    ObserverState :=
  if s.isProcessing then s
  else { s with isProcessing := true, pending := some muts,
                scheduledTimeouts := s.scheduledTimeouts + 1 }

/-- The scheduled timeout body: clear the busy flag, then rescan exactly
when the captured batch added a matching review node. -/
def timeoutFire (s : ObserverState) : ObserverState :=
  match s.pending with
  | none => s
  | some muts =>
    { s with isProcessing := false, pending := none,
             rescans := if hasNewReviews muts then s.rescans + 1
                        else s.rescans }

/-- A burst of mutation batches all raised inside one 500 ms debounce
window, followed by the expiry of the single timeout scheduled in that
window. -/
def runBurst (bursts : List (List MutationRec)) : ObserverState :=
  timeoutFire (bursts.foldl observerCallback initObserver)

/-! ## Badge update (`handleBadgeUpdate`, background service worker) -/

/-- The `{ total, unanswered }` payload of an `UPDATE_BADGE` message. -/
structure BadgeData where
  total : Nat
  unanswered : Nat
  deriving DecidableEq, Repr

/-- A `chrome.action` call issued for the sender's tab. -/
inductive BadgeCommand where
  | setBadgeText (text : String)
  | setBadgeBackgroundColor (color : String)
  deriving DecidableEq, Repr

/-- Function `handleBadgeUpdate`: show the unanswered count on a red background
when it is positive, otherwise clear the badge text. -/
def handleBadgeUpdate (data : BadgeData) : List BadgeCommand :=
  if 0 < data.unanswered then
    [.setBadgeText (toString data.unanswered),
     .setBadgeBackgroundColor "#FF3B30"]
  else
    [.setBadgeText ""]

/-! ## Concrete inputs used by witnesses and counterexamples -/

/-- An element on which every selector query finds nothing: a container
missing every optional sub-element. -/
def emptyElem : Element :=
  { querySelector := fun _ => .ok none }

/-- An element whose every query throws. -/
def throwElem : Element :=
  { querySelector := fun _ => .error "boom" }

/-- An element whose only sub-element is a rating node with class
`stars count-7`. -/
def elemCount7 : Element :=
  { querySelector := fun sel =>
      if sel = ".stars" then
        .ok (some { textContent := .ok none,
                    className := .ok (some "stars count-7") })
      else .ok none }

/-- An element whose only sub-element is a rating node with class
`stars count-3`. -/
def elemCount3 : Element :=
  { querySelector := fun sel =>
      if sel = ".stars" then
        .ok (some { textContent := .ok none,
                    className := .ok (some "stars count-3") })
      else .ok none }

/-- The record extracted from a container with no optional sub-elements. -/
def emptyRecord : ReviewRecord :=
  { id := "", title := "", rating := 0, content := "", nickname := "",
    hasResponse := false }

/-- The end-to-end scenario's review: text "I can't find my invoice". -/
def exampleReview : ReviewRecord :=
  { id := "", title := "", rating := 0,
    content := "I can\x27t find my invoice", nickname := "",
    hasResponse := false }

/-- The end-to-end scenario's knowledge base: a billing entry with
keywords `["invoice", "payment"]` and an entry with no keyword overlap. -/
def exampleKB : List KBItem :=
  [{ id := "billing", keywords := ["invoice", "payment"] },
   { id := "shipping", keywords := ["delivery", "tracking"] }]

/-! ## Lemmas about the observer debounce -/

/-- While the busy flag is set, every further observer callback is a
no-op. -/
theorem foldl_observerCallback_busy (l : List (List MutationRec))
    (s : ObserverState) (h : s.isProcessing = true) :
    l.foldl observerCallback s = s := by
  induction l with
  | nil => rfl
  | cons b rest ih =>
    simp only [List.foldl_cons, observerCallback, h, if_true]
    exact ih

/-- C4.  A burst of N ≥ 1 mutation batches inside one debounce window,
each adding at least one matching review node, schedules exactly one
timeout and produces exactly one rescan. -/
theorem claim_C4_debounce (b : List MutationRec)
    (rest : List (List MutationRec))
    (h : ∀ ms ∈ b :: rest, hasNewReviews ms = true) :
    (runBurst (b :: rest)).rescans = 1 ∧
    (runBurst (b :: rest)).scheduledTimeouts = 1 := by
  have hb : hasNewReviews b = true := h b (List.mem_cons_self b rest)
  have hfold : (b :: rest).foldl observerCallback initObserver =
      { isProcessing := true, pending := some b, scheduledTimeouts := 1,
        rescans := 0 } := by
    simp only [List.foldl_cons, observerCallback, initObserver]
    exact foldl_observerCallback_busy rest _ rfl
  simp [runBurst, hfold, timeoutFire, hb]

/-- Witness for C4: three concrete mutation batches in one window. -/
theorem claim_C4_witness :
    (runBurst [[⟨[⟨true, true, false⟩]⟩], [⟨[⟨true, true, false⟩]⟩],
               [⟨[⟨true, false, true⟩]⟩]]).rescans = 1 ∧
    (runBurst [[⟨[⟨true, true, false⟩]⟩], [⟨[⟨true, true, false⟩]⟩],
               [⟨[⟨true, false, true⟩]⟩]]).scheduledTimeouts = 1 :=
  claim_C4_debounce [⟨[⟨true, true, false⟩]⟩]
    [[⟨[⟨true, true, false⟩]⟩], [⟨[⟨true, false, true⟩]⟩]]
    (by decide)

/-- C6.  The analysis cache is consulted with a strict 24-hour freshness
window: a present entry is applied exactly when its age is under
24 hours; an absent entry, or one aged 25 hours, triggers a fresh
request; an entry timestamped now is applied as-is. -/
theorem claim_C6_cache_freshness :
    (∀ (e : CacheEntry) (now : Int),
      analyzeAllReviews (some e) now = .useCache e.data ↔
        now - e.timestamp < 24 * 60 * 60 * 1000) ∧
    (∀ now : Int, analyzeAllReviews none now = .freshRequest) ∧
    (∀ (d : AnalysisData) (now : Int),
      analyzeAllReviews (some { timestamp := now, data := d }) now =
        .useCache d) ∧
    (∀ (d : AnalysisData) (now : Int),
      analyzeAllReviews
          (some { timestamp := now - 25 * 60 * 60 * 1000, data := d })
          now = .freshRequest) := by
  refine ⟨fun e now => ?_, fun now => rfl, fun d now => ?_, fun d now => ?_⟩
  · constructor
    · intro h
      by_contra hage
      simp only [analyzeAllReviews, if_neg hage] at h
      exact AnalyzeAction.noConfusion h
    · intro hage
      have h86 : now - e.timestamp < 86400000 := by omega
      simp [analyzeAllReviews, h86]
  · simp [analyzeAllReviews]
  · have : ¬ (now - (now - 25 * 60 * 60 * 1000) < 24 * 60 * 60 * 1000) := by
      omega
    simp [analyzeAllReviews, this]

/-- C9.  Injecting the counter twice equals injecting it once
(idempotence up to the latest counts), the document never ends up with
two widgets, and when the reviews header is present the single widget
shows the latest counts. -/
theorem claim_C9_idempotent_injection (d : PageDoc) (t u t' u' : Nat) :
    injectReviewCounter t' u' (injectReviewCounter t u d) =
      injectReviewCounter t' u' d ∧
    (injectReviewCounter t' u' (injectReviewCounter t u d)).counter.toList.length ≤ 1 ∧
    (d.headerPresent = true →
      (injectReviewCounter t' u' (injectReviewCounter t u d)).counter =
        some { total := t', unanswered := u' }) := by
  refine ⟨?_, ?_, ?_⟩
  · cases hh : d.headerPresent <;> simp [injectReviewCounter, hh]
  · cases hh : d.headerPresent <;> simp [injectReviewCounter, hh]
  · intro hh
    simp [injectReviewCounter, hh]

/-- Witness for C9: a header-bearing document with an old widget. -/
theorem claim_C9_witness :
    injectReviewCounter 5 2 (injectReviewCounter 1 1
        { counter := some { total := 9, unanswered := 9 },
          headerPresent := true }) =
      injectReviewCounter 5 2
        { counter := some { total := 9, unanswered := 9 },
          headerPresent := true } ∧
    (injectReviewCounter 5 2 (injectReviewCounter 1 1
        { counter := some { total := 9, unanswered := 9 },
          headerPresent := true })).counter =
      some { total := 5, unanswered := 2 } :=
  ⟨(claim_C9_idempotent_injection
      { counter := some { total := 9, unanswered := 9 },
        headerPresent := true } 1 1 5 2).1,
   (claim_C9_idempotent_injection
      { counter := some { total := 9, unanswered := 9 },
        headerPresent := true } 1 1 5 2).2.2 rfl⟩

/-- C10.  The badge update shows the decimal unanswered count on a red
background when it is positive, clears the badge text when it is zero,
and is independent of the total count. -/
theorem claim_C10_badge (t t' u : Nat) :
    handleBadgeUpdate { total := t, unanswered := u } =
      handleBadgeUpdate { total := t', unanswered := u } ∧
    (0 < u → handleBadgeUpdate { total := t, unanswered := u } =
      [.setBadgeText (toString u), .setBadgeBackgroundColor "#FF3B30"]) ∧
    (u = 0 → handleBadgeUpdate { total := t, unanswered := u } =
      [.setBadgeText ""]) := by
  refine ⟨rfl, fun hu => ?_, fun hu => ?_⟩
  · simp [handleBadgeUpdate, hu]
  · simp [handleBadgeUpdate, hu]

/-- Witness for C10: positive and zero unanswered counts. -/
theorem claim_C10_witness :
    handleBadgeUpdate { total := 10, unanswered := 3 } =
      [.setBadgeText "3", .setBadgeBackgroundColor "#FF3B30"] ∧
    handleBadgeUpdate { total := 10, unanswered := 0 } =
      [.setBadgeText ""] :=
  ⟨(claim_C10_badge 10 10 3).2.1 (by decide),
   (claim_C10_badge 10 10 0).2.2 rfl⟩

/-! ## Lemmas about the extractor -/

/-- Inversion of a successful extraction body: each field of the record
is the result of the corresponding sub-extraction, and the id is derived
from the title, nickname and content. -/
theorem extractBody_ok_inv (e : Element) (r : ReviewRecord)
    (h : extractBody e = .ok r) :
    r.id = deriveId r.title r.nickname r.content ∧
    titleOf e = .ok r.title ∧ ratingOf e = .ok r.rating ∧
    contentOf e = .ok r.content ∧ hasResponseOf e = .ok r.hasResponse ∧
    nicknameOf e = .ok r.nickname := by
  unfold extractBody at h
  cases ht : titleOf e with
  | error er => rw [ht] at h; exact Except.noConfusion h
  | ok title =>
  rw [ht] at h
  cases hrt : ratingOf e with
  | error er => rw [hrt] at h; exact Except.noConfusion h
  | ok rating =>
  rw [hrt] at h
  cases hc : contentOf e with
  | error er => rw [hc] at h; exact Except.noConfusion h
  | ok content =>
  rw [hc] at h
  cases hhr : hasResponseOf e with
  | error er => rw [hhr] at h; exact Except.noConfusion h
  | ok hasResp =>
  rw [hhr] at h
  cases hn : nicknameOf e with
  | error er => rw [hn] at h; exact Except.noConfusion h
  | ok nickname =>
  rw [hn] at h
  cases h
  exact ⟨rfl, rfl, rfl, rfl, rfl, rfl⟩

/-- A record returned by `extractReviewData` came from a successful
body. -/
theorem extractReviewData_some_body (e : Element) (r : ReviewRecord)
    (h : extractReviewData e = some r) : extractBody e = .ok r := by
  unfold extractReviewData at h
  cases hb : extractBody e with
  | error er => rw [hb] at h; exact Option.noConfusion h
  | ok r0 =>
    rw [hb] at h
    cases h
    rfl

/-- A successful extraction derives the id deterministically from the
(title, nickname, content) triple. -/
theorem extractReviewData_id (e : Element) (r : ReviewRecord)
    (h : extractReviewData e = some r) :
    r.id = deriveId r.title r.nickname r.content :=
  (extractBody_ok_inv e r (extractReviewData_some_body e r h)).1

/-- C7.  Id determinism: two extractions (at any two times, from any two
DOM nodes) that agree on title, nickname and content produce the same
id. -/
theorem claim_C7_id_determinism (e1 e2 : Element) (r1 r2 : ReviewRecord)
    (h1 : extractReviewData e1 = some r1)
    (h2 : extractReviewData e2 = some r2)
    (ht : r1.title = r2.title) (hn : r1.nickname = r2.nickname)
    (hc : r1.content = r2.content) : r1.id = r2.id := by
  rw [extractReviewData_id e1 r1 h1, extractReviewData_id e2 r2 h2, ht, hn,
    hc]

/-- Witness for C7: an empty container and a rating-only container agree
on the text triple and receive the same id. -/
theorem claim_C7_witness :
    (emptyRecord).id =
      (ReviewRecord.mk "" "" 3 "" "" false).id :=
  claim_C7_id_determinism emptyElem elemCount3 emptyRecord
    (ReviewRecord.mk "" "" 3 "" "" false) rfl rfl rfl rfl rfl

/-- C5, part used below: an extraction exception yields `none`. -/
theorem extractReviewData_of_error (e : Element) (er : JsErr)
    (h : extractBody e = .error er) : extractReviewData e = none := by
  simp [extractReviewData, h]

/-- C5.  Error handling of the extractor: a thrown exception makes the
extractor return no record instead of propagating; a node whose
extraction fails is skipped and the scan of the remaining nodes is
unaffected; a container with every optional sub-element missing yields
the all-default record rather than a failure. -/
theorem claim_C5_error_handling :
    (∀ (e : Element) (er : JsErr), extractBody e = .error er →
      extractReviewData e = none) ∧
    (∀ (xs ys : List Element) (e : Element), extractReviewData e = none →
      scanReviews (xs ++ e :: ys) = scanReviews (xs ++ ys)) ∧
    (∀ e : Element, (∀ sel, e.querySelector sel = .ok none) →
      extractReviewData e = some emptyRecord) := by
  refine ⟨extractReviewData_of_error, fun xs ys e h => ?_, fun e h => ?_⟩
  · simp [scanReviews, List.foldl_append, scanStep, h]
  · have hb : extractBody e = .ok emptyRecord := by
      simp [extractBody, titleOf, ratingOf, contentOf, hasResponseOf,
        nicknameOf, textTrim, h, emptyRecord, nicknameFromText, matchByDash,
        deriveId, encodeURIComponent, btoa, b64Chunks]
    simp [extractReviewData, hb]

/-- Witness for C5: a throwing element and an empty container. -/
theorem claim_C5_witness :
    extractReviewData throwElem = none ∧
    scanReviews [throwElem] = scanReviews [] ∧
    extractReviewData emptyElem = some emptyRecord := by
  refine ⟨claim_C5_error_handling.1 throwElem "boom" rfl, ?_, ?_⟩
  · have h := claim_C5_error_handling.2.1 [] [] throwElem
      (claim_C5_error_handling.1 throwElem "boom" rfl)
    simpa using h
  · exact claim_C5_error_handling.2.2 emptyElem (fun sel => rfl)

/-! ## Lemmas about the rating parse -/

/-- A digit match at the head of the list has value at most 9. -/
theorem startCountDigit_le (l : List Char) (d : Nat)
    (h : startCountDigit l = some d) : d ≤ 9 := by
  unfold startCountDigit at h
  split at h
  · rename_i d0 r
    split at h
    · rename_i hd
      cases h
      simp only [Char.isDigit, Bool.and_eq_true, decide_eq_true_eq] at hd
      have h2 : d0.toNat ≤ 57 := hd.2
      omega
    · exact Option.noConfusion h
  · exact Option.noConfusion h

/-- A digit captured by `/count-(\d)/` is at most 9. -/
theorem findCountDigit_le (l : List Char) (d : Nat)
    (h : findCountDigit l = some d) : d ≤ 9 := by
  induction l with
  | nil => exact Option.noConfusion h
  | cons c r ih =>
    rw [findCountDigit] at h
    cases hs : startCountDigit (c :: r) with
    | some d0 =>
      rw [hs] at h
      cases h
      exact startCountDigit_le _ _ hs
    | none =>
      rw [hs] at h
      exact ih h

/-- Function `parseRating` is bounded by 9. -/
theorem parseRating_le (cls : List Char) : parseRating cls ≤ 9 := by
  unfold parseRating
  cases h : findCountDigit cls with
  | none => simp
  | some d => simpa using findCountDigit_le cls d h

/-- Function `ratingOf` only produces values at most 9. -/
theorem ratingOf_le (e : Element) (n : Nat) (h : ratingOf e = .ok n) :
    n ≤ 9 := by
  unfold ratingOf at h
  split at h
  · exact Except.noConfusion h
  · cases h; omega
  · split at h
    · exact Except.noConfusion h
    · cases h; omega
    · cases h; exact parseRating_le _

/-- Counterexample to C8 as stated: a container whose rating node carries
class `stars count-7` is extracted with rating 7, outside 0–5. -/
theorem claim_C8_counterexample :
    extractReviewData elemCount7 =
      some { id := "", title := "", rating := 7, content := "",
             nickname := "", hasResponse := false } ∧
    ¬ (7 : Nat) ≤ 5 := by
  exact ⟨by decide, by decide⟩

/-- C8 (amended).  The extracted rating is the single digit captured by
the first `/count-(\d)/` match of the rating element's class name — hence
an integer between 0 and 9, not 0 and 5 — and it is 0 whenever the
rating element is absent (and, by `parseRating`, whenever no `count-`
digit is parseable). -/
theorem claim_C8_rating_range :
    (∀ e : Element,
      Option.all (fun r => decide (r.rating ≤ 9)) (extractReviewData e) =
        true) ∧
    (∀ e : Element, e.querySelector ".stars" = .ok none →
      Option.all (fun r => decide (r.rating = 0)) (extractReviewData e) =
        true) := by
  constructor
  · intro e
    cases h : extractReviewData e with
    | none => rfl
    | some r =>
      have hb := extractReviewData_some_body e r h
      have hr := (extractBody_ok_inv e r hb).2.2.1
      simpa using ratingOf_le e r.rating hr
  · intro e hq
    cases h : extractReviewData e with
    | none => rfl
    | some r =>
      have hb := extractReviewData_some_body e r h
      have hr := (extractBody_ok_inv e r hb).2.2.1
      rw [ratingOf] at hr
      rw [hq] at hr
      have h0 : (0 : Nat) = r.rating := by
        simpa using hr
      simp [← h0]

/-- Witness for C8 (amended): the bound at the `count-7` container and
the zero default at the empty container. -/
theorem claim_C8_witness :
    Option.all (fun r => decide (r.rating ≤ 9))
      (extractReviewData elemCount7) = true ∧
    Option.all (fun r => decide (r.rating = 0))
      (extractReviewData emptyElem) = true :=
  ⟨claim_C8_rating_range.1 elemCount7,
   claim_C8_rating_range.2 emptyElem rfl⟩

/-! ## Lemmas about the scanner -/

/-- The total counter counts successful extractions. -/
theorem scanFold_total (es : List Element) :
    ∀ s : ScanState, (es.foldl scanStep s).totalReviews =
      s.totalReviews + (es.filterMap extractReviewData).length := by
  induction es with
  | nil => intro s; simp
  | cons e es ih =>
    intro s
    cases h : extractReviewData e with
    | none => simp [List.foldl_cons, scanStep, h, ih]
    | some r =>
      simp only [List.foldl_cons, scanStep, h, List.filterMap_cons]
      rw [ih]
      simp
      omega

/-- The unanswered counter counts successful extractions without a
response. -/
theorem scanFold_unanswered (es : List Element) :
    ∀ s : ScanState, (es.foldl scanStep s).unansweredReviews =
      s.unansweredReviews +
        ((es.filterMap extractReviewData).filter
          (fun r => !r.hasResponse)).length := by
  induction es with
  | nil => intro s; simp
  | cons e es ih =>
    intro s
    cases h : extractReviewData e with
    | none => simp [List.foldl_cons, scanStep, h, ih]
    | some r =>
      simp only [List.foldl_cons, scanStep, h, List.filterMap_cons]
      rw [ih]
      cases hr : r.hasResponse <;> (simp [List.filter_cons, hr]; try omega)

/-- When the inserted key is fresh, `Map.set` appends. -/
theorem mapSet_fresh (m : List (String × ReviewRecord)) (k : String)
    (v : ReviewRecord) (h : m.any (fun p => p.1 == k) = false) :
    mapSet m k v = m ++ [(k, v)] := by
  simp [mapSet, h]

/-- With pairwise-distinct ids among the extracted records, the snapshot
is exactly the association list of the extracted records, appended after
the records already present. -/
theorem scanFold_reviews (es : List Element) :
    ∀ s : ScanState,
      (∀ r ∈ es.filterMap extractReviewData,
        s.reviews.any (fun p => p.1 == r.id) = false) →
      ((es.filterMap extractReviewData).map (fun r => r.id)).Nodup →
      (es.foldl scanStep s).reviews =
        s.reviews ++
          (es.filterMap extractReviewData).map (fun r => (r.id, r)) := by
  induction es with
  | nil => intro s _ _; simp
  | cons e es ih =>
    intro s hfresh hnodup
    cases h : extractReviewData e with
    | none =>
      rw [List.filterMap_cons_none h] at hfresh hnodup ⊢
      simp only [List.foldl_cons, scanStep, h]
      exact ih s hfresh hnodup
    | some r =>
      rw [List.filterMap_cons_some h] at hfresh hnodup ⊢
      simp only [List.foldl_cons, scanStep, h]
      have hfr : s.reviews.any (fun p => p.1 == r.id) = false :=
        hfresh r (List.mem_cons_self r _)
      rw [List.map_cons, List.nodup_cons] at hnodup
      have hstep : (scanStep s e).reviews = s.reviews ++ [(r.id, r)] := by
        simp only [scanStep, h]
        exact mapSet_fresh s.reviews r.id r hfr
      have hfresh' : ∀ r' ∈ es.filterMap extractReviewData,
          (s.reviews ++ [(r.id, r)]).any (fun p => p.1 == r'.id) = false := by
        intro r' hr'
        rw [List.any_append]
        have h1 : s.reviews.any (fun p => p.1 == r'.id) = false :=
          hfresh r' (List.mem_cons_of_mem r hr')
        have h2 : (r.id == r'.id) = false := by
          have : r.id ≠ r'.id := by
            intro hid
            exact hnodup.1 (hid ▸ List.mem_map_of_mem (fun r => r.id) hr')
          simpa using this
        simp [h1, h2]
      have := ih { reviews := s.reviews ++ [(r.id, r)],
                   totalReviews := s.totalReviews + 1,
                   unansweredReviews :=
                     s.unansweredReviews + if r.hasResponse then 0 else 1 }
        hfresh' hnodup.2
      simp only [scanStep, h, mapSet_fresh s.reviews r.id r hfr]
      rw [this]
      simp

/-- Counterexample to C1 as stated: a document with two distinct review
containers deriving the same id reports a total of 2 while the snapshot
holds a single entry (and likewise 2 unanswered against 1 in the
snapshot). -/
theorem claim_C1_counterexample :
    (scanReviews [emptyElem, emptyElem]).totalReviews = 2 ∧
    (scanReviews [emptyElem, emptyElem]).reviews.length = 1 ∧
    (scanReviews [emptyElem, emptyElem]).unansweredReviews = 2 ∧
    ((scanReviews [emptyElem, emptyElem]).reviews.filter
      (fun p => !p.2.hasResponse)).length = 1 ∧
    ¬ (2 : Nat) = 1 := by
  refine ⟨by decide, by decide, by decide, by decide, by decide⟩

/-- C1 (amended).  After a scan, the reported total equals the number of
successfully extracted records and the reported unanswered count equals
the number of those records without a response; when the extracted
records carry pairwise-distinct ids — the situation outside the accepted
collision gap — these equal the snapshot size and the snapshot count of
`hasResponse = false`, as the claim states.  (When two containers derive
the same id the counters exceed the snapshot's, see the
counterexample.) -/
theorem claim_C1_snapshot_consistency (es : List Element)
    (h : ((es.filterMap extractReviewData).map (fun r => r.id)).Nodup) :
    (scanReviews es).totalReviews =
      (es.filterMap extractReviewData).length ∧
    (scanReviews es).unansweredReviews =
      ((es.filterMap extractReviewData).filter
        (fun r => !r.hasResponse)).length ∧
    (scanReviews es).reviews.length = (scanReviews es).totalReviews ∧
    ((scanReviews es).reviews.filter (fun p => !p.2.hasResponse)).length =
      (scanReviews es).unansweredReviews := by
  have htot2 : (scanReviews es).totalReviews =
      (es.filterMap extractReviewData).length := by
    simpa [scanReviews] using scanFold_total es ⟨[], 0, 0⟩
  have hun2 : (scanReviews es).unansweredReviews =
      ((es.filterMap extractReviewData).filter
        (fun r => !r.hasResponse)).length := by
    simpa [scanReviews] using scanFold_unanswered es ⟨[], 0, 0⟩
  have hrev2 : (scanReviews es).reviews =
      (es.filterMap extractReviewData).map (fun r => (r.id, r)) := by
    simpa [scanReviews] using
      scanFold_reviews es ⟨[], 0, 0⟩ (by intro r _; rfl) h
  refine ⟨htot2, hun2, ?_, ?_⟩
  · rw [hrev2, htot2, List.length_map]
  · rw [hrev2, hun2, List.filter_map]
    rw [List.length_map]
    rfl

/-- Witness for C1 (amended): a single empty container (one record, one
snapshot entry, both unanswered). -/
theorem claim_C1_witness :
    (scanReviews [emptyElem]).totalReviews =
      ([emptyElem].filterMap extractReviewData).length ∧
    (scanReviews [emptyElem]).reviews.length =
      (scanReviews [emptyElem]).totalReviews :=
  ⟨(claim_C1_snapshot_consistency [emptyElem] (by decide)).1,
   (claim_C1_snapshot_consistency [emptyElem] (by decide)).2.2.1⟩

/-! ## Lemmas about the knowledge-base matcher -/

/-- Membership under descending insertion. -/
theorem mem_insertByScoreDesc (x a : KBMatch) (l : List KBMatch) :
    a ∈ insertByScoreDesc x l ↔ a = x ∨ a ∈ l := by
  induction l with
  | nil => simp [insertByScoreDesc]
  | cons y ys ih =>
    by_cases hlt : y.score < x.score
    · simp [insertByScoreDesc, if_pos hlt, List.mem_cons]
    · simp only [insertByScoreDesc, if_neg hlt, List.mem_cons, ih]
      tauto

/-- Descending insertion preserves the descending order. -/
theorem pairwise_insertByScoreDesc (x : KBMatch) (l : List KBMatch)
    (h : l.Pairwise (fun a b => b.score ≤ a.score)) :
    (insertByScoreDesc x l).Pairwise (fun a b => b.score ≤ a.score) := by
  induction l with
  | nil => simp [insertByScoreDesc]
  | cons y ys ih =>
    rw [List.pairwise_cons] at h
    obtain ⟨hy, hys⟩ := h
    by_cases hlt : y.score < x.score
    · simp only [insertByScoreDesc, if_pos hlt]
      rw [List.pairwise_cons]
      refine ⟨?_, List.pairwise_cons.mpr ⟨hy, hys⟩⟩
      intro z hz
      rcases List.mem_cons.mp hz with rfl | hz2
      · omega
      · have := hy z hz2
        omega
    · simp only [insertByScoreDesc, if_neg hlt]
      rw [List.pairwise_cons]
      refine ⟨?_, ih hys⟩
      intro z hz
      rcases (mem_insertByScoreDesc x z ys).mp hz with rfl | hz2
      · omega
      · exact hy z hz2

/-- The stable sort is in descending score order. -/
theorem pairwise_jsSortByScoreDesc (l : List KBMatch) :
    (jsSortByScoreDesc l).Pairwise (fun a b => b.score ≤ a.score) := by
  have key : ∀ (l acc : List KBMatch),
      acc.Pairwise (fun a b => b.score ≤ a.score) →
      (l.foldl (fun acc x => insertByScoreDesc x acc) acc).Pairwise
        (fun a b => b.score ≤ a.score) := by
    intro l
    induction l with
    | nil => intro acc h; exact h
    | cons x xs ih =>
      intro acc h
      exact ih _ (pairwise_insertByScoreDesc x acc h)
  exact key l [] (by simp)

/-- The stable sort permutes membership. -/
theorem mem_jsSortByScoreDesc (a : KBMatch) (l : List KBMatch) :
    a ∈ jsSortByScoreDesc l ↔ a ∈ l := by
  have key : ∀ (l acc : List KBMatch),
      (a ∈ l.foldl (fun acc x => insertByScoreDesc x acc) acc ↔
        a ∈ acc ∨ a ∈ l) := by
    intro l
    induction l with
    | nil => intro acc; simp
    | cons x xs ih =>
      intro acc
      rw [List.foldl_cons, ih, mem_insertByScoreDesc, List.mem_cons]
      tauto
  simpa [jsSortByScoreDesc] using key l []

/-- Sorting a list extended on the right inserts the new element. -/
theorem jsSort_append_singleton (l : List KBMatch) (x : KBMatch) :
    jsSortByScoreDesc (l ++ [x]) = insertByScoreDesc x (jsSortByScoreDesc l) := by
  simp [jsSortByScoreDesc, List.foldl_append]

/-- Stability step: inserting into a descending list keeps the
equal-score entries' relative order (the new element lands after all
equal scores). -/
theorem filter_insertByScoreDesc (x : KBMatch) (s : Nat) (m : List KBMatch)
    (hm : m.Pairwise (fun a b => b.score ≤ a.score)) :
    (insertByScoreDesc x m).filter (fun a => a.score == s) =
      if x.score = s then m.filter (fun a => a.score == s) ++ [x]
      else m.filter (fun a => a.score == s) := by
  induction m with
  | nil =>
    by_cases hx : x.score = s <;>
      simp [insertByScoreDesc, List.filter_cons, beq_iff_eq, hx]
  | cons y ys ih =>
    rw [List.pairwise_cons] at hm
    obtain ⟨hy, hys⟩ := hm
    by_cases hlt : y.score < x.score
    · simp only [insertByScoreDesc, if_pos hlt]
      by_cases hx : x.score = s
      · have hnil : (y :: ys).filter (fun a => a.score == s) = [] := by
          rw [List.filter_eq_nil_iff]
          intro a ha
          rcases List.mem_cons.mp ha with rfl | ha2
          · simp
            omega
          · have := hy a ha2
            simp
            omega
        rw [hnil, if_pos hx]
        rw [List.filter_cons, hnil]
        simp [hx]
      · rw [if_neg hx, List.filter_cons]
        simp [hx]
    · simp only [insertByScoreDesc, if_neg hlt]
      rw [List.filter_cons, ih hys, List.filter_cons]
      by_cases hx : x.score = s <;> by_cases hyv : y.score = s <;>
        simp [hx, hyv]

/-- Stability of the sort: for every score value, the entries carrying it
appear in their original order. -/
theorem filter_jsSortByScoreDesc (s : Nat) (l : List KBMatch) :
    (jsSortByScoreDesc l).filter (fun a => a.score == s) =
      l.filter (fun a => a.score == s) := by
  induction l using List.reverseRecOn with
  | nil => rfl
  | append_singleton l x ih =>
    rw [jsSort_append_singleton,
      filter_insertByScoreDesc x s _ (pairwise_jsSortByScoreDesc l),
      List.filter_append]
    by_cases hx : x.score = s <;> simp [hx, ih]

/-- The `forEach` push-if-positive accumulation equals annotate-then-
filter. -/
theorem kbScores_eq (text : List Char) (kb : List KBItem) :
    kbScores text kb =
      (kb.map (fun item =>
        { id := item.id, score := kbScore text item, item := item })).filter
        (fun m => 0 < m.score) := by
  have key : ∀ (kb : List KBItem) (acc : List KBMatch),
      kb.foldl
        (fun acc item =>
          let s := kbScore text item
          if 0 < s then acc ++ [{ id := item.id, score := s, item := item }]
          else acc)
        acc =
      acc ++ (kb.map (fun item =>
        { id := item.id, score := kbScore text item, item := item })).filter
        (fun m => 0 < m.score) := by
    intro kb
    induction kb with
    | nil => intro acc; simp
    | cons item rest ih =>
      intro acc
      rw [List.foldl_cons]
      by_cases hs : 0 < kbScore text item
      · simp only [hs, if_true]
        rw [ih]
        simp [List.filter_cons, hs]
      · simp only [hs, if_false]
        rw [ih]
        simp [List.filter_cons, hs]
  simpa [kbScores] using key kb []

/-- C3.  The knowledge-base matcher: it equals the specification's
description (score = number of keywords occurring case-insensitively in
the combined title-and-content text, entries of score 0 excluded,
descending score order, top 3 kept); its output is sorted descending, at
most 3 long, every returned entry has its correct positive score, ties
keep the original knowledge-base order, and the end-to-end invoice
scenario returns exactly the billing entry with score 1. -/
theorem claim_C3_kb_matcher :
    (∀ (r : ReviewRecord) (kb : List KBItem),
      matchKnowledgeBase r kb = specTopMatches r kb) ∧
    (∀ (r : ReviewRecord) (kb : List KBItem),
      (matchKnowledgeBase r kb).length ≤ 3) ∧
    (∀ (r : ReviewRecord) (kb : List KBItem),
      (matchKnowledgeBase r kb).Pairwise (fun a b => b.score ≤ a.score)) ∧
    (∀ (r : ReviewRecord) (kb : List KBItem) (m : KBMatch),
      m ∈ matchKnowledgeBase r kb →
        0 < m.score ∧ m.score = kbScore (reviewTextOf r) m.item) ∧
    (∀ (r : ReviewRecord) (kb : List KBItem) (s : Nat),
      List.IsPrefix
        ((matchKnowledgeBase r kb).filter (fun a => a.score == s))
        ((kbScores (reviewTextOf r) kb).filter (fun a => a.score == s))) ∧
    (matchKnowledgeBase exampleReview exampleKB =
      [{ id := "billing", score := 1,
         item := { id := "billing", keywords := ["invoice", "payment"] } }]) := by
  refine ⟨?_, ?_, ?_, ?_, ?_, by decide⟩
  · intro r kb
    rw [matchKnowledgeBase, specTopMatches, kbScores_eq]
  · intro r kb
    rw [matchKnowledgeBase]
    exact List.length_take_le 3 _
  · intro r kb
    rw [matchKnowledgeBase]
    exact (pairwise_jsSortByScoreDesc _).sublist (List.take_sublist 3 _)
  · intro r kb m hm
    rw [matchKnowledgeBase] at hm
    have h1 : m ∈ jsSortByScoreDesc (kbScores (reviewTextOf r) kb) :=
      List.take_subset 3 _ hm
    have h2 : m ∈ kbScores (reviewTextOf r) kb :=
      (mem_jsSortByScoreDesc m _).mp h1
    rw [kbScores_eq] at h2
    rw [List.mem_filter] at h2
    obtain ⟨hmap, hpos⟩ := h2
    obtain ⟨item, _, heq⟩ := List.mem_map.mp hmap
    refine ⟨by simpa using hpos, ?_⟩
    rw [← heq]
  · intro r kb s
    rw [matchKnowledgeBase]
    conv_rhs => rw [← filter_jsSortByScoreDesc s]
    exact List.IsPrefix.filter _
      ⟨(jsSortByScoreDesc (kbScores (reviewTextOf r) kb)).drop 3,
        List.take_append_drop 3 _⟩

/-- Witness for C3: the billing entry of the invoice scenario is a member
with positive, correct score. -/
theorem claim_C3_witness :
    0 < (1 : Nat) ∧
    (1 : Nat) = kbScore (reviewTextOf exampleReview)
      { id := "billing", keywords := ["invoice", "payment"] } :=
  claim_C3_kb_matcher.2.2.2.1 exampleReview exampleKB
    { id := "billing", score := 1,
      item := { id := "billing", keywords := ["invoice", "payment"] } }
    (by decide)

/-! ## Lemmas about the identifier encoding -/

/-- Unfolding equations of `b64Chunks`, stated for rewriting. -/
theorem b64Chunks_one (a : Nat) :
    b64Chunks [a] = [a / 4, a % 4 * 16, 64, 64] := rfl

/-- Unfolding equation of `b64Chunks` on two bytes. -/
theorem b64Chunks_two (a b : Nat) :
    b64Chunks [a, b] = [a / 4, a % 4 * 16 + b / 16, b % 16 * 4, 64] := rfl

/-- Unfolding equation of `b64Chunks` on three or more bytes. -/
theorem b64Chunks_cons3 (a b c : Nat) (r : List Nat) :
    b64Chunks (a :: b :: c :: r) =
      a / 4 :: (a % 4 * 16 + b / 16) :: (b % 16 * 4 + c / 64) :: c % 64 ::
        b64Chunks r := rfl

/-- Unfolding equation of `unb64` on four or more sextets. -/
theorem unb64_cons (e1 e2 e3 e4 : Nat) (r : List Nat) :
    unb64 (e1 :: e2 :: e3 :: e4 :: r) =
      if e3 = 64 then [e1 * 4 + e2 / 16]
      else if e4 = 64 then [e1 * 4 + e2 / 16, e2 % 16 * 16 + e3 / 4]
      else (e1 * 4 + e2 / 16) :: (e2 % 16 * 16 + e3 / 4) ::
        (e3 % 4 * 64 + e4) :: unb64 r := rfl

/-- Length of the base64 sextet list. -/
theorem b64Chunks_length (l : List Nat) :
    (b64Chunks l).length = 4 * ((l.length + 2) / 3) := by
  induction l using b64Chunks.induct with
  | case1 => rfl
  | case2 a => rw [b64Chunks_one]; simp
  | case3 a b => rw [b64Chunks_two]; simp
  | case4 a b c r ih =>
    rw [b64Chunks_cons3]
    simp only [List.length_cons, ih]
    omega

/-- Sextet values stay in `0..64` for byte inputs. -/
theorem b64Chunks_le (l : List Nat) (hl : ∀ b ∈ l, b < 256) :
    ∀ x ∈ b64Chunks l, x ≤ 64 := by
  induction l using b64Chunks.induct with
  | case1 => intro x hx; cases hx
  | case2 a =>
    have ha := hl a (by simp)
    intro x hx
    rw [b64Chunks_one] at hx
    simp only [List.mem_cons, List.not_mem_nil, or_false] at hx
    rcases hx with rfl | rfl | rfl | rfl <;> omega
  | case3 a b =>
    have ha := hl a (by simp)
    have hb := hl b (by simp)
    intro x hx
    rw [b64Chunks_two] at hx
    simp only [List.mem_cons, List.not_mem_nil, or_false] at hx
    rcases hx with rfl | rfl | rfl | rfl <;> omega
  | case4 a b c r ih =>
    have ha := hl a (by simp)
    have hb := hl b (by simp)
    have hc := hl c (by simp)
    have hr : ∀ x ∈ r, x < 256 := fun x hx => hl x (by simp [hx])
    intro x hx
    rw [b64Chunks_cons3] at hx
    simp only [List.mem_cons] at hx
    rcases hx with rfl | rfl | rfl | rfl | hx
    · omega
    · omega
    · omega
    · omega
    · exact ih hr x hx

/-- The sextet decoder inverts the encoder on byte inputs. -/
theorem unb64_b64Chunks (l : List Nat) (hl : ∀ b ∈ l, b < 256) :
    unb64 (b64Chunks l) = l := by
  induction l using b64Chunks.induct with
  | case1 => rfl
  | case2 a =>
    have ha := hl a (by simp)
    rw [b64Chunks_one, unb64_cons, if_pos rfl]
    simp only [List.cons.injEq, and_true]
    omega
  | case3 a b =>
    have ha := hl a (by simp)
    have hb := hl b (by simp)
    rw [b64Chunks_two, unb64_cons, if_neg (by omega), if_pos rfl]
    simp only [List.cons.injEq, and_true]
    exact ⟨by omega, by omega⟩
  | case4 a b c r ih =>
    have ha := hl a (by simp)
    have hb := hl b (by simp)
    have hc := hl c (by simp)
    have hr : ∀ x ∈ r, x < 256 := fun x hx => hl x (by simp [hx])
    rw [b64Chunks_cons3, unb64_cons, if_neg (by omega), if_neg (by omega)]
    simp only [List.cons.injEq]
    exact ⟨by omega, by omega, by omega, ih hr⟩

/-- The alphabet decoder inverts the alphabet encoder on `0..64`. -/
theorem sextetVal_sextetChar : ∀ n, n ≤ 64 → sextetVal (sextetChar n) = n := by
  decide

/-- Mapping back through the alphabet recovers the sextets. -/
theorem map_sextet_roundtrip (s : List Nat) (h : ∀ x ∈ s, x ≤ 64) :
    (s.map sextetChar).map sextetVal = s := by
  induction s with
  | nil => rfl
  | cons x xs ih =>
    simp only [List.map_cons, List.cons.injEq]
    exact ⟨sextetVal_sextetChar x (h x (by simp)),
           ih (fun y hy => h y (by simp [hy]))⟩

/-- Function `btoa` is injective on byte lists. -/
theorem btoa_inj (l1 l2 : List Nat) (h1 : ∀ b ∈ l1, b < 256)
    (h2 : ∀ b ∈ l2, b < 256) (h : btoa l1 = btoa l2) : l1 = l2 := by
  have e : b64Chunks l1 = b64Chunks l2 := by
    have h' := congrArg (List.map sextetVal) h
    rwa [btoa, btoa, map_sextet_roundtrip _ (b64Chunks_le l1 h1),
      map_sextet_roundtrip _ (b64Chunks_le l2 h2)] at h'
  calc l1 = unb64 (b64Chunks l1) := (unb64_b64Chunks l1 h1).symm
    _ = unb64 (b64Chunks l2) := by rw [e]
    _ = l2 := unb64_b64Chunks l2 h2

/-- Every Unicode scalar value is below `0x110000`. -/
theorem char_toNat_lt (c : Char) : c.toNat < 1114112 := by
  have h := c.valid
  rcases h with h | ⟨h1, h2⟩
  · exact Nat.lt_trans h (by norm_num)
  · exact h2

/-- UTF-8 bytes of a scalar value are bytes. -/
theorem utf8Bytes_lt (n : Nat) (hn : n < 1114112) :
    ∀ u ∈ utf8Bytes n, u < 256 := by
  unfold utf8Bytes
  split_ifs with h1 h2 h3 <;> intro u hu <;>
    simp only [List.mem_cons, List.not_mem_nil, or_false] at hu
  · omega
  · rcases hu with rfl | rfl <;> omega
  · rcases hu with rfl | rfl | rfl <;> omega
  · rcases hu with rfl | rfl | rfl | rfl <;> omega

/-- Hexadecimal digit codes are bytes. -/
theorem hexDigitCode_lt (d : Nat) (hd : d < 16) : hexDigitCode d < 256 := by
  unfold hexDigitCode
  split_ifs <;> omega

/-- The percent-encoding of a byte consists of bytes. -/
theorem pctEncodeByte_lt (b : Nat) (hb : b < 256) :
    ∀ u ∈ pctEncodeByte b, u < 256 := by
  intro u hu
  simp only [pctEncodeByte, List.mem_cons, List.not_mem_nil, or_false] at hu
  rcases hu with rfl | rfl | rfl
  · omega
  · exact hexDigitCode_lt _ (by omega)
  · exact hexDigitCode_lt _ (by omega)

/-- Function `encodeURIComponent` produces bytes. -/
theorem encChar_lt (c : Char) : ∀ b ∈ encChar c, b < 256 := by
  intro b hb
  unfold encChar at hb
  by_cases hu : uriUnreserved c.toNat
  · rw [if_pos hu] at hb
    simp only [List.mem_cons, List.not_mem_nil, or_false] at hb
    subst hb
    unfold uriUnreserved at hu
    simp only [Bool.or_eq_true, Bool.and_eq_true, decide_eq_true_eq] at hu
    omega
  · rw [if_neg hu] at hb
    rw [List.mem_flatMap] at hb
    obtain ⟨u, hu8, hpct⟩ := hb
    exact pctEncodeByte_lt u (utf8Bytes_lt c.toNat (char_toNat_lt c) u hu8)
      b hpct

/-- The byte values of an encoded string are bytes. -/
theorem encodeURIComponent_lt (s : String) :
    ∀ b ∈ encodeURIComponent s, b < 256 := by
  intro b hb
  rw [encodeURIComponent, List.mem_flatMap] at hb
  obtain ⟨c, _, hc⟩ := hb
  exact encChar_lt c b hc

/-- The hexadecimal decoder inverts the digit encoder. -/
theorem hexVal_hexDigitCode (d : Nat) (hd : d < 16) :
    hexVal (hexDigitCode d) = d := by
  unfold hexVal hexDigitCode
  split_ifs <;> omega

/-- Decoding the two hex digits of a byte recovers the byte. -/
theorem hexPair_decode (b : Nat) (hb : b < 256) :
    hexVal (hexDigitCode (b / 16)) * 16 + hexVal (hexDigitCode (b % 16)) =
      b := by
  rw [hexVal_hexDigitCode _ (by omega), hexVal_hexDigitCode _ (by omega)]
  omega

/-- The hexadecimal digit encoder is injective below 16. -/
theorem hexDigitCode_inj (x y : Nat) (hx : x < 16) (hy : y < 16)
    (h : hexDigitCode x = hexDigitCode y) : x = y := by
  unfold hexDigitCode at h
  split_ifs at h <;> omega

/-- The four UTF-8 classes of a scalar value. -/
theorem escClass (n : Nat) (hv : n < 1114112) :
    n < 128 ∨ (128 ≤ n ∧ n < 2048) ∨ (2048 ≤ n ∧ n < 65536) ∨
      65536 ≤ n := by
  omega

/-- Percent-escape of a one-byte character. -/
theorem escFlat1 (n : Nat) (h : n < 128) :
    (utf8Bytes n).flatMap pctEncodeByte =
      [37, hexDigitCode (n / 16), hexDigitCode (n % 16)] := by
  rw [utf8Bytes, if_pos h]
  simp [pctEncodeByte]

/-- Percent-escape of a two-byte character. -/
theorem escFlat2 (n : Nat) (h1 : 128 ≤ n) (h2 : n < 2048) :
    (utf8Bytes n).flatMap pctEncodeByte =
      [37, hexDigitCode ((192 + n / 64) / 16),
       hexDigitCode ((192 + n / 64) % 16),
       37, hexDigitCode ((128 + n % 64) / 16),
       hexDigitCode ((128 + n % 64) % 16)] := by
  rw [utf8Bytes, if_neg (by omega), if_pos h2]
  simp [pctEncodeByte]

/-- Percent-escape of a three-byte character. -/
theorem escFlat3 (n : Nat) (h1 : 2048 ≤ n) (h2 : n < 65536) :
    (utf8Bytes n).flatMap pctEncodeByte =
      [37, hexDigitCode ((224 + n / 4096) / 16),
       hexDigitCode ((224 + n / 4096) % 16),
       37, hexDigitCode ((128 + n / 64 % 64) / 16),
       hexDigitCode ((128 + n / 64 % 64) % 16),
       37, hexDigitCode ((128 + n % 64) / 16),
       hexDigitCode ((128 + n % 64) % 16)] := by
  rw [utf8Bytes, if_neg (by omega), if_neg (by omega), if_pos h2]
  simp [pctEncodeByte]

/-- Percent-escape of a four-byte character. -/
theorem escFlat4 (n : Nat) (h1 : 65536 ≤ n) :
    (utf8Bytes n).flatMap pctEncodeByte =
      [37, hexDigitCode ((240 + n / 262144) / 16),
       hexDigitCode ((240 + n / 262144) % 16),
       37, hexDigitCode ((128 + n / 4096 % 64) / 16),
       hexDigitCode ((128 + n / 4096 % 64) % 16),
       37, hexDigitCode ((128 + n / 64 % 64) / 16),
       hexDigitCode ((128 + n / 64 % 64) % 16),
       37, hexDigitCode ((128 + n % 64) / 16),
       hexDigitCode ((128 + n % 64) % 16)] := by
  rw [utf8Bytes, if_neg (by omega), if_neg (by omega), if_neg (by omega)]
  simp [pctEncodeByte]

/-- The escape encoding starts with the `%` byte. -/
theorem escFlat_head (n : Nat) (hv : n < 1114112) :
    ∃ t, (utf8Bytes n).flatMap pctEncodeByte = 37 :: t := by
  rcases escClass n hv with hc | ⟨hca, hcb⟩ | ⟨hca, hcb⟩ | hc
  · exact ⟨_, escFlat1 n hc⟩
  · exact ⟨_, escFlat2 n hca hcb⟩
  · exact ⟨_, escFlat3 n hca hcb⟩
  · exact ⟨_, escFlat4 n hc⟩

/-- The flattened percent-escape encoding is a prefix code on scalar
values: equal streams force equal characters and equal tails. -/
theorem escFlat_inj (n1 n2 : Nat) (hv1 : n1 < 1114112) (hv2 : n2 < 1114112)
    (r1 r2 : List Nat)
    (h : (utf8Bytes n1).flatMap pctEncodeByte ++ r1 =
         (utf8Bytes n2).flatMap pctEncodeByte ++ r2) :
    n1 = n2 ∧ r1 = r2 := by
  rcases escClass n1 hv1 with hc1 | ⟨hc1a, hc1b⟩ | ⟨hc1a, hc1b⟩ | hc1 <;>
    rcases escClass n2 hv2 with hc2 | ⟨hc2a, hc2b⟩ | ⟨hc2a, hc2b⟩ | hc2
  · rw [escFlat1 n1 hc1, escFlat1 n2 hc2] at h
    simp only [List.cons_append, List.cons.injEq, eq_self_iff_true,
      true_and] at h
    obtain ⟨d1, d2, hr⟩ := h
    have e1 := hexDigitCode_inj _ _ (by omega) (by omega) d1
    have e2 := hexDigitCode_inj _ _ (by omega) (by omega) d2
    exact ⟨by omega, hr⟩
  · rw [escFlat1 n1 hc1, escFlat2 n2 hc2a hc2b] at h
    simp only [List.cons_append, List.cons.injEq, eq_self_iff_true,
      true_and] at h
    have e1 := hexDigitCode_inj _ _ (by omega) (by omega) h.1
    exfalso
    omega
  · rw [escFlat1 n1 hc1, escFlat3 n2 hc2a hc2b] at h
    simp only [List.cons_append, List.cons.injEq, eq_self_iff_true,
      true_and] at h
    have e1 := hexDigitCode_inj _ _ (by omega) (by omega) h.1
    exfalso
    omega
  · rw [escFlat1 n1 hc1, escFlat4 n2 hc2] at h
    simp only [List.cons_append, List.cons.injEq, eq_self_iff_true,
      true_and] at h
    have e1 := hexDigitCode_inj _ _ (by omega) (by omega) h.1
    exfalso
    omega
  · rw [escFlat2 n1 hc1a hc1b, escFlat1 n2 hc2] at h
    simp only [List.cons_append, List.cons.injEq, eq_self_iff_true,
      true_and] at h
    have e1 := hexDigitCode_inj _ _ (by omega) (by omega) h.1
    exfalso
    omega
  · rw [escFlat2 n1 hc1a hc1b, escFlat2 n2 hc2a hc2b] at h
    simp only [List.cons_append, List.cons.injEq, eq_self_iff_true,
      true_and] at h
    obtain ⟨d1, d2, d3, d4, hr⟩ := h
    have e1 := hexDigitCode_inj _ _ (by omega) (by omega) d1
    have e2 := hexDigitCode_inj _ _ (by omega) (by omega) d2
    have e3 := hexDigitCode_inj _ _ (by omega) (by omega) d3
    have e4 := hexDigitCode_inj _ _ (by omega) (by omega) d4
    exact ⟨by omega, hr⟩
  · rw [escFlat2 n1 hc1a hc1b, escFlat3 n2 hc2a hc2b] at h
    simp only [List.cons_append, List.cons.injEq, eq_self_iff_true,
      true_and] at h
    have e1 := hexDigitCode_inj _ _ (by omega) (by omega) h.1
    exfalso
    omega
  · rw [escFlat2 n1 hc1a hc1b, escFlat4 n2 hc2] at h
    simp only [List.cons_append, List.cons.injEq, eq_self_iff_true,
      true_and] at h
    have e1 := hexDigitCode_inj _ _ (by omega) (by omega) h.1
    exfalso
    omega
  · rw [escFlat3 n1 hc1a hc1b, escFlat1 n2 hc2] at h
    simp only [List.cons_append, List.cons.injEq, eq_self_iff_true,
      true_and] at h
    have e1 := hexDigitCode_inj _ _ (by omega) (by omega) h.1
    exfalso
    omega
  · rw [escFlat3 n1 hc1a hc1b, escFlat2 n2 hc2a hc2b] at h
    simp only [List.cons_append, List.cons.injEq, eq_self_iff_true,
      true_and] at h
    have e1 := hexDigitCode_inj _ _ (by omega) (by omega) h.1
    exfalso
    omega
  · rw [escFlat3 n1 hc1a hc1b, escFlat3 n2 hc2a hc2b] at h
    simp only [List.cons_append, List.cons.injEq, eq_self_iff_true,
      true_and] at h
    obtain ⟨d1, d2, d3, d4, d5, d6, hr⟩ := h
    have e1 := hexDigitCode_inj _ _ (by omega) (by omega) d1
    have e2 := hexDigitCode_inj _ _ (by omega) (by omega) d2
    have e3 := hexDigitCode_inj _ _ (by omega) (by omega) d3
    have e4 := hexDigitCode_inj _ _ (by omega) (by omega) d4
    have e5 := hexDigitCode_inj _ _ (by omega) (by omega) d5
    have e6 := hexDigitCode_inj _ _ (by omega) (by omega) d6
    exact ⟨by omega, hr⟩
  · rw [escFlat3 n1 hc1a hc1b, escFlat4 n2 hc2] at h
    simp only [List.cons_append, List.cons.injEq, eq_self_iff_true,
      true_and] at h
    have e1 := hexDigitCode_inj _ _ (by omega) (by omega) h.1
    exfalso
    omega
  · rw [escFlat4 n1 hc1, escFlat1 n2 hc2] at h
    simp only [List.cons_append, List.cons.injEq, eq_self_iff_true,
      true_and] at h
    have e1 := hexDigitCode_inj _ _ (by omega) (by omega) h.1
    exfalso
    omega
  · rw [escFlat4 n1 hc1, escFlat2 n2 hc2a hc2b] at h
    simp only [List.cons_append, List.cons.injEq, eq_self_iff_true,
      true_and] at h
    have e1 := hexDigitCode_inj _ _ (by omega) (by omega) h.1
    exfalso
    omega
  · rw [escFlat4 n1 hc1, escFlat3 n2 hc2a hc2b] at h
    simp only [List.cons_append, List.cons.injEq, eq_self_iff_true,
      true_and] at h
    have e1 := hexDigitCode_inj _ _ (by omega) (by omega) h.1
    exfalso
    omega
  · rw [escFlat4 n1 hc1, escFlat4 n2 hc2] at h
    simp only [List.cons_append, List.cons.injEq, eq_self_iff_true,
      true_and] at h
    obtain ⟨d1, d2, d3, d4, d5, d6, d7, d8, hr⟩ := h
    have e1 := hexDigitCode_inj _ _ (by omega) (by omega) d1
    have e2 := hexDigitCode_inj _ _ (by omega) (by omega) d2
    have e3 := hexDigitCode_inj _ _ (by omega) (by omega) d3
    have e4 := hexDigitCode_inj _ _ (by omega) (by omega) d4
    have e5 := hexDigitCode_inj _ _ (by omega) (by omega) d5
    have e6 := hexDigitCode_inj _ _ (by omega) (by omega) d6
    have e7 := hexDigitCode_inj _ _ (by omega) (by omega) d7
    have e8 := hexDigitCode_inj _ _ (by omega) (by omega) d8
    exact ⟨by omega, hr⟩

/-- A character's encoding is never empty. -/
theorem encChar_ne_nil (c : Char) : encChar c ≠ [] := by
  unfold encChar
  by_cases hu : uriUnreserved c.toNat
  · simp [hu]
  · rw [if_neg hu]
    obtain ⟨t, ht⟩ := escFlat_head c.toNat (char_toNat_lt c)
    rw [ht]
    simp

/-- Function `encodeURIComponent` is a prefix code at the character level. -/
theorem encChar_prefix_inj (c1 c2 : Char) (r1 r2 : List Nat)
    (h : encChar c1 ++ r1 = encChar c2 ++ r2) : c1 = c2 ∧ r1 = r2 := by
  have hv1 := char_toNat_lt c1
  have hv2 := char_toNat_lt c2
  by_cases hu1 : uriUnreserved c1.toNat <;>
    by_cases hu2 : uriUnreserved c2.toNat
  · rw [encChar, if_pos hu1, encChar, if_pos hu2] at h
    simp only [List.cons_append, List.nil_append, List.cons.injEq] at h
    obtain ⟨hn, hr⟩ := h
    refine ⟨?_, hr⟩
    have h' := congrArg Char.ofNat hn
    rwa [Char.ofNat_toNat, Char.ofNat_toNat] at h'
  · exfalso
    rw [encChar, if_pos hu1, encChar, if_neg hu2] at h
    obtain ⟨t, ht⟩ := escFlat_head c2.toNat hv2
    rw [ht] at h
    simp only [List.cons_append, List.nil_append, List.cons.injEq] at h
    rw [h.1] at hu1
    exact absurd hu1 (by decide)
  · exfalso
    rw [encChar, if_neg hu1, encChar, if_pos hu2] at h
    obtain ⟨t, ht⟩ := escFlat_head c1.toNat hv1
    rw [ht] at h
    simp only [List.cons_append, List.nil_append, List.cons.injEq] at h
    rw [← h.1] at hu2
    exact absurd hu2 (by decide)
  · rw [encChar, if_neg hu1, encChar, if_neg hu2] at h
    obtain ⟨hn, hr⟩ := escFlat_inj _ _ hv1 hv2 r1 r2 h
    refine ⟨?_, hr⟩
    have h' := congrArg Char.ofNat hn
    rwa [Char.ofNat_toNat, Char.ofNat_toNat] at h'

/-- Function `encodeURIComponent` is injective at the character-list level. -/
theorem encFlat_inj : ∀ l1 l2 : List Char,
    l1.flatMap encChar = l2.flatMap encChar → l1 = l2 := by
  intro l1
  induction l1 with
  | nil =>
    intro l2 h
    cases l2 with
    | nil => rfl
    | cons c t =>
      exfalso
      rw [List.flatMap_nil, List.flatMap_cons] at h
      rcases List.append_eq_nil.mp h.symm with ⟨h1, _⟩
      exact encChar_ne_nil c h1
  | cons c t ih =>
    intro l2 h
    cases l2 with
    | nil =>
      exfalso
      rw [List.flatMap_nil, List.flatMap_cons] at h
      rcases List.append_eq_nil.mp h with ⟨h1, _⟩
      exact encChar_ne_nil c h1
    | cons c2 t2 =>
      rw [List.flatMap_cons, List.flatMap_cons] at h
      obtain ⟨hc, hr⟩ := encChar_prefix_inj c c2 _ _ h
      rw [hc, ih t2 hr]

/-- Image under `String.toList` of a concatenation. -/
theorem toList_append (a b : String) :
    (a ++ b).toList = a.toList ++ b.toList := by
  simp [String.toList]

/-- Function `String.toList` is injective. -/
theorem toList_inj (a b : String) (h : a.toList = b.toList) : a = b := by
  cases a; cases b
  simp only [String.toList] at h
  exact congrArg String.mk h

/-- Function `encodeURIComponent` is injective. -/
theorem encodeURIComponent_inj (s1 s2 : String)
    (h : encodeURIComponent s1 = encodeURIComponent s2) : s1 = s2 :=
  toList_inj s1 s2 (encFlat_inj s1.toList s2.toList h)

/-- On records whose encoded text fits in 12 bytes the truncation to 16
base64 characters is lossless, so equal ids force equal concatenated
texts. -/
theorem deriveId_inj (t1 n1 c1 t2 n2 c2 : String)
    (h1 : (encodeURIComponent (t1 ++ n1 ++ c1)).length ≤ 12)
    (h2 : (encodeURIComponent (t2 ++ n2 ++ c2)).length ≤ 12)
    (h : deriveId t1 n1 c1 = deriveId t2 n2 c2) :
    t1 ++ n1 ++ c1 = t2 ++ n2 ++ c2 := by
  unfold deriveId at h
  have len1 : (btoa (encodeURIComponent (t1 ++ n1 ++ c1))).length ≤ 16 := by
    rw [btoa, List.length_map, b64Chunks_length]
    omega
  have len2 : (btoa (encodeURIComponent (t2 ++ n2 ++ c2))).length ≤ 16 := by
    rw [btoa, List.length_map, b64Chunks_length]
    omega
  rw [List.take_of_length_le len1, List.take_of_length_le len2] at h
  have hb : btoa (encodeURIComponent (t1 ++ n1 ++ c1)) =
      btoa (encodeURIComponent (t2 ++ n2 ++ c2)) :=
    congrArg String.toList h
  have he := btoa_inj _ _ (encodeURIComponent_lt _) (encodeURIComponent_lt _)
    hb
  exact encodeURIComponent_inj _ _ he

/-- Counterexample to C2 as stated: two records differing only in the
13th character of the title share the same derived id (the encoding is
truncated to its first 12 bytes), and this is no hash coincidence — it
is systematic truncation. -/
theorem claim_C2_counterexample :
    deriveId "aaaaaaaaaaaab" "" "" = deriveId "aaaaaaaaaaaac" "" "" ∧
    ("aaaaaaaaaaaab" : String) ≠ "aaaaaaaaaaaac" := by
  exact ⟨by decide, by decide⟩

/-- C2 (amended).  Changing exactly one of title, nickname or content
changes the derived id, provided both records' percent-encoded
concatenated texts fit within the 12 bytes (16 base64 characters) the
truncation keeps; beyond that boundary changes can leave the id intact
(see the counterexample). -/
theorem claim_C2_id_sensitivity (t n c t' n' c' : String)
    (h1 : (encodeURIComponent (t ++ n ++ c)).length ≤ 12)
    (h2 : (encodeURIComponent (t' ++ n' ++ c')).length ≤ 12)
    (hcomp : (n = n' ∧ c = c') ∨ (t = t' ∧ c = c') ∨ (t = t' ∧ n = n'))
    (hne : ¬ (t = t' ∧ n = n' ∧ c = c')) :
    deriveId t n c ≠ deriveId t' n' c' := by
  intro h
  have heq := deriveId_inj t n c t' n' c' h1 h2 h
  have hl := congrArg String.toList heq
  rw [toList_append, toList_append, toList_append, toList_append] at hl
  apply hne
  rcases hcomp with ⟨hn, hc⟩ | ⟨ht, hc⟩ | ⟨ht, hn⟩
  · subst hn; subst hc
    have h1' := List.append_cancel_right hl
    have h2' := List.append_cancel_right h1'
    exact ⟨toList_inj t t' h2', rfl, rfl⟩
  · subst ht; subst hc
    have h' := List.append_cancel_right hl
    have := List.append_cancel_left h'
    exact ⟨rfl, toList_inj n n' this, rfl⟩
  · subst ht; subst hn
    have h' := List.append_cancel_left hl
    exact ⟨rfl, rfl, toList_inj c c' h'⟩

/-- Witness for C2 (amended): one-character titles over empty nickname
and content. -/
theorem claim_C2_witness :
    deriveId "x" "" "" ≠ deriveId "y" "" "" :=
  claim_C2_id_sensitivity "x" "" "" "y" "" "" (by decide) (by decide)
    (Or.inl ⟨rfl, rfl⟩) (by decide)

end Reviewllama
